import Mathlib

set_option maxRecDepth 100000

/-!
# Verifier-input codec: shallow embedding and verification

This file embeds the core of `src/scripts/prepare_input/src/main.rs` (the
verifier-input codec of the repository) in Lean 4 and proves/refutes the
frozen claims about it.  Machine integers of the Rust source (`BigInt`,
`u64`) are modelled as `Nat` with explicit `% 2^256` where the source
performs 256-bit wraparound; byte strings are `List Nat` with every entry a
byte; `keccak256` (the `sha3` crate's Keccak-256, Ethereum padding) is
implemented executably below and validated against standard test vectors.
-/

namespace EvmCodec

/-! ## Keccak-256 (the `sha3::Keccak256` primitive used by the source)

Lanes are 64-bit words stored as `Nat < 2^64`, state is a flat list of 25
lanes with index `i = x + 5*y`.  The round function is the standard
theta, rho, pi, chi, iota sequence written out lane by lane (rho offsets,
pi permutation and iota round constants are the standard Keccak tables). -/

def u64Mask : Nat := 18446744073709551615

/-- Left rotation of a 64-bit lane by n bits. -/
def rotl64 (x n : Nat) : Nat :=
  if n == 0 then x % 18446744073709551616
  else ((x <<< n) ||| (x >>> (64 - n))) &&& u64Mask

def iotaRC : List Nat := [0x1, 0x8082, 0x800000000000808a, 0x8000000080008000, 0x808b, 0x80000001, 0x8000000080008081, 0x8000000000008009, 0x8a, 0x88, 0x80008009, 0x8000000a, 0x8000808b, 0x800000000000008b, 0x8000000000008089, 0x8000000000008003, 0x8000000000008002, 0x8000000000000080, 0x800a, 0x800000008000000a, 0x8000000080008081, 0x8000000000008080, 0x80000001, 0x8000000080008008]

def keccakRound (rc : Nat) (s : List Nat) : List Nat :=
  match s with
  | [a0, a1, a2, a3, a4, a5, a6, a7, a8, a9, a10, a11, a12, a13, a14, a15, a16, a17, a18, a19, a20, a21, a22, a23, a24] =>
    let c0 := a0 ^^^ a5 ^^^ a10 ^^^ a15 ^^^ a20
    let c1 := a1 ^^^ a6 ^^^ a11 ^^^ a16 ^^^ a21
    let c2 := a2 ^^^ a7 ^^^ a12 ^^^ a17 ^^^ a22
    let c3 := a3 ^^^ a8 ^^^ a13 ^^^ a18 ^^^ a23
    let c4 := a4 ^^^ a9 ^^^ a14 ^^^ a19 ^^^ a24
    let d0 := c4 ^^^ rotl64 c1 1
    let d1 := c0 ^^^ rotl64 c2 1
    let d2 := c1 ^^^ rotl64 c3 1
    let d3 := c2 ^^^ rotl64 c4 1
    let d4 := c3 ^^^ rotl64 c0 1
    let t0 := a0 ^^^ d0
    let t1 := a1 ^^^ d1
    let t2 := a2 ^^^ d2
    let t3 := a3 ^^^ d3
    let t4 := a4 ^^^ d4
    let t5 := a5 ^^^ d0
    let t6 := a6 ^^^ d1
    let t7 := a7 ^^^ d2
    let t8 := a8 ^^^ d3
    let t9 := a9 ^^^ d4
    let t10 := a10 ^^^ d0
    let t11 := a11 ^^^ d1
    let t12 := a12 ^^^ d2
    let t13 := a13 ^^^ d3
    let t14 := a14 ^^^ d4
    let t15 := a15 ^^^ d0
    let t16 := a16 ^^^ d1
    let t17 := a17 ^^^ d2
    let t18 := a18 ^^^ d3
    let t19 := a19 ^^^ d4
    let t20 := a20 ^^^ d0
    let t21 := a21 ^^^ d1
    let t22 := a22 ^^^ d2
    let t23 := a23 ^^^ d3
    let t24 := a24 ^^^ d4
    let b0 := t0
    let b1 := rotl64 t6 44
    let b2 := rotl64 t12 43
    let b3 := rotl64 t18 21
    let b4 := rotl64 t24 14
    let b5 := rotl64 t3 28
    let b6 := rotl64 t9 20
    let b7 := rotl64 t10 3
    let b8 := rotl64 t16 45
    let b9 := rotl64 t22 61
    let b10 := rotl64 t1 1
    let b11 := rotl64 t7 6
    let b12 := rotl64 t13 25
    let b13 := rotl64 t19 8
    let b14 := rotl64 t20 18
    let b15 := rotl64 t4 27
    let b16 := rotl64 t5 36
    let b17 := rotl64 t11 10
    let b18 := rotl64 t17 15
    let b19 := rotl64 t23 56
    let b20 := rotl64 t2 62
    let b21 := rotl64 t8 55
    let b22 := rotl64 t14 39
    let b23 := rotl64 t15 41
    let b24 := rotl64 t21 2
    [b0 ^^^ ((u64Mask ^^^ b1) &&& b2) ^^^ rc,
     b1 ^^^ ((u64Mask ^^^ b2) &&& b3),
     b2 ^^^ ((u64Mask ^^^ b3) &&& b4),
     b3 ^^^ ((u64Mask ^^^ b4) &&& b0),
     b4 ^^^ ((u64Mask ^^^ b0) &&& b1),
     b5 ^^^ ((u64Mask ^^^ b6) &&& b7),
     b6 ^^^ ((u64Mask ^^^ b7) &&& b8),
     b7 ^^^ ((u64Mask ^^^ b8) &&& b9),
     b8 ^^^ ((u64Mask ^^^ b9) &&& b5),
     b9 ^^^ ((u64Mask ^^^ b5) &&& b6),
     b10 ^^^ ((u64Mask ^^^ b11) &&& b12),
     b11 ^^^ ((u64Mask ^^^ b12) &&& b13),
     b12 ^^^ ((u64Mask ^^^ b13) &&& b14),
     b13 ^^^ ((u64Mask ^^^ b14) &&& b10),
     b14 ^^^ ((u64Mask ^^^ b10) &&& b11),
     b15 ^^^ ((u64Mask ^^^ b16) &&& b17),
     b16 ^^^ ((u64Mask ^^^ b17) &&& b18),
     b17 ^^^ ((u64Mask ^^^ b18) &&& b19),
     b18 ^^^ ((u64Mask ^^^ b19) &&& b15),
     b19 ^^^ ((u64Mask ^^^ b15) &&& b16),
     b20 ^^^ ((u64Mask ^^^ b21) &&& b22),
     b21 ^^^ ((u64Mask ^^^ b22) &&& b23),
     b22 ^^^ ((u64Mask ^^^ b23) &&& b24),
     b23 ^^^ ((u64Mask ^^^ b24) &&& b20),
     b24 ^^^ ((u64Mask ^^^ b20) &&& b21)]
  | _ => s

def keccakF (s : List Nat) : List Nat :=
  iotaRC.foldl (fun s rc => keccakRound rc s) s

/-- Multi-rate padding with domain byte `0x01` (original Keccak as used by
Ethereum and the `sha3::Keccak256` crate, not SHA3's `0x06`). -/
def keccakPad (msg : List Nat) : List Nat :=
  let padLen := 136 - msg.length % 136
  if padLen == 1 then msg ++ [0x81]
  else msg ++ [0x01] ++ List.replicate (padLen - 2) 0 ++ [0x80]

/-- Group a byte list into 64-bit lanes, little-endian within each lane. -/
def lanesOfBytes : List Nat → List Nat
  | b0 :: b1 :: b2 :: b3 :: b4 :: b5 :: b6 :: b7 :: rest =>
    (b0 + 256 * (b1 + 256 * (b2 + 256 * (b3 + 256 * (b4 + 256 * (b5 + 256 * (b6 + 256 * b7))))))) :: lanesOfBytes rest
  | _ => []

/-- XOR a list of lanes into the low lanes of the state. -/
def xorInto : List Nat → List Nat → List Nat
  | s, [] => s
  | [], _ => []
  | x :: xs, l :: ls => (x ^^^ l) :: xorInto xs ls

/-- Split a padded message (whose length is a multiple of 136) into
136-byte blocks. -/
def blocks136 (msg : List Nat) : List (List Nat) :=
  (List.range (msg.length / 136)).map fun i => (msg.drop (136 * i)).take 136

def absorbAll (blocks : List (List Nat)) : List Nat :=
  blocks.foldl (fun s b => keccakF (xorInto s (lanesOfBytes b))) (List.replicate 25 0)

/-- The 32-byte digest as a big-endian integer: the first four lanes of the
state, each emitted as 8 little-endian bytes. -/
def digestOfState (s : List Nat) : Nat :=
  match s with
  | l0 :: l1 :: l2 :: l3 :: _ =>
    (((List.range 8).map fun i => l0 / 256 ^ i % 256) ++
     ((List.range 8).map fun i => l1 / 256 ^ i % 256) ++
     ((List.range 8).map fun i => l2 / 256 ^ i % 256) ++
     ((List.range 8).map fun i => l3 / 256 ^ i % 256)).foldl (fun acc b => acc * 256 + b) 0
  | _ => 0

/-- Keccak-256 of a byte list, returned as the big-endian 256-bit integer of
the 32-byte digest (this is how the source interprets digests via
`BigInt::from_bytes_be`). -/
def keccak256 (msg : List Nat) : Nat :=
  digestOfState (absorbAll (blocks136 (keccakPad msg)))

example : keccak256 [] = 0xc5d2460186f7233c927e7db2dcc703c0e500b653ca82273b7bfad8045d85a470 := by decide

example : keccak256 [0x61, 0x62, 0x63] = 0x4e03657aea45a94fc7d47ba826c8d667c0d1e6e33a64a036ec44f58fa12d6c45 := by decide

/-! ## Field constants and byte serialization (`K_MODULUS_STR`, `K_MONTGOMERY_R_INV`) -/

/-- The Cairo prime field modulus, `K_MODULUS_STR` in the source. -/
def KModulus : Nat := 0x800000000000011000000000000000000000000000000000000000000000001

/-- Constant `K_MONTGOMERY_R_INV` from the source (taken from PrimeFieldElement0.sol). -/
def KMontgomeryRInv : Nat := 0x40000000000001100000000000012100000000000000000000000000000000

def two256 : Nat := 2 ^ 256

/-- Serialize a word as 32 big-endian bytes, left padded with zeros.  This is
the source's `to_bytes_be().1` copied into the tail of a zeroed `[u8; 32]`.
(The source would panic on a value of 33+ bytes; such values never arise in
the pipeline, whose words are field elements and 256-bit digests.) -/
def toBytes32 (n : Nat) : List Nat :=
  (List.range 32).map fun i => n / 256 ^ (31 - i) % 256

/-- Concatenation of the 32-byte serializations of a word list. -/
def bytesOfWords (ws : List Nat) : List Nat :=
  (ws.map toBytes32).flatten

/-- Big-endian byte list to integer, `BigInt::from_bytes_be`. -/
def fromBytesBE (bs : List Nat) : Nat :=
  bs.foldl (fun a b => a * 256 + b) 0

/-- Floor base-2 logarithm (fuelled so that it is structurally recursive
and reduces in the kernel; the fuel `n` always suffices since the argument
halves each step). -/
def log2Aux : Nat → Nat → Nat
  | 0, _ => 0
  | fuel + 1, n => if 2 ≤ n then log2Aux fuel (n / 2) + 1 else 0

/-- Floor base-2 logarithm: the value of the source's
`(n as f64).log2() as u32` for every step count a prover can emit (powers
of two are exact in f64). -/
def log2Floor (n : Nat) : Nat := log2Aux n n

/-- Ceiling base-2 logarithm: the value of the source's
`(x as f64).log2().ceil() as u32` for every `u32` input (saturating to 0 at
0, where f64 yields negative infinity). -/
def clog2Ceil (n : Nat) : Nat := if n ≤ 1 then 0 else log2Floor (n - 1) + 1

example : log2Floor 0 = 0 := by decide
example : log2Floor 1 = 0 := by decide
example : log2Floor 4 = 2 := by decide
example : log2Floor 5 = 2 := by decide
example : clog2Ceil 0 = 0 := by decide
example : clog2Ceil 1 = 0 := by decide
example : clog2Ceil 5 = 3 := by decide
example : clog2Ceil 64 = 6 := by decide

/-! ## Data model (structs of `prepare_input/src/main.rs`)

`MemoryCell.address` arrives in the JSON as a decimal string (or number) and
`MemoryCell.value` as a hex string; the source re-parses them into `BigInt`
at every use.  They are modelled here post-parse, as `Nat`.  `rc_min` and
`rc_max` are `i64` in the source; real range-check bounds are non-negative,
and they are modelled as `Nat`. -/

structure MemorySegment where
  begin_addr : Nat
  stop_ptr : Nat
deriving DecidableEq

structure MemoryCell where
  page : Nat
  address : Nat
  value : Nat
deriving DecidableEq

structure FriParams where
  n_queries : Nat
  proof_of_work_bits : Nat
  last_layer_degree_bound : Nat
  fri_step_list : List Nat
deriving DecidableEq

structure StarkParams where
  log_n_cosets : Nat
  fri : FriParams
deriving DecidableEq

structure ProofParameters where
  stark : StarkParams
  n_verifier_friendly_commitment_layers : Option Nat
deriving DecidableEq

structure PublicInput where
  n_steps : Nat
  rc_min : Nat
  rc_max : Nat
  layout : String
  memory_segments : List (String × MemorySegment)
  public_memory : List MemoryCell
deriving DecidableEq

structure AnnotatedProof where
  annotations : List String
  proof_hex : String
  public_input : PublicInput
  proof_parameters : ProofParameters
deriving DecidableEq

structure MemoryPageRegular where
  memory_pairs : List Nat
deriving DecidableEq

structure MemoryPageContinuous where
  start_addr : Nat
  values : List Nat
deriving DecidableEq

structure MemoryPageFacts where
  regular_page : Option MemoryPageRegular
  continuous_pages : List MemoryPageContinuous
deriving DecidableEq

structure VerifierInput where
  proof_params : List Nat
  proof : List Nat
  public_input : List Nat
  z : Nat
  alpha : Nat
  memory_page_facts : MemoryPageFacts
deriving DecidableEq

/-- The field names emitted when serde serializes `VerifierInput` to the
output JSON document, in declaration order (derived `Serialize`). -/
def VerifierInput.serializedKeys : List String :=
  ["proof_params", "proof", "public_input", "z", "alpha", "memory_page_facts"]

/-! ## Page grouping

The source repeatedly builds `HashMap<u64, Vec<_>>` keyed by page id by a
single pass over `public_memory` (each cell appended to its page's vector in
encounter order) and then sorts the key set ascending.  `dedupFirst` keeps
the first occurrence of each page id; sorting it with `insertionSort`
reproduces the sorted key list. -/

def dedupFirst : List Nat → List Nat
  | [] => []
  | x :: xs => x :: (dedupFirst xs).filter (fun y => y != x)

/-- Sorted list of distinct page ids, the source's
`let mut page_numbers: Vec<u64> = pages.keys().cloned().collect(); page_numbers.sort()`. -/
def sortedPageIds (cells : List MemoryCell) : List Nat :=
  List.insertionSort (· ≤ ·) (dedupFirst (cells.map (·.page)))

/-- The cells of one page, in encounter order (the page's `Vec` in the maps). -/
def pageCells (cells : List MemoryCell) (pid : Nat) : List MemoryCell :=
  cells.filter (fun c => c.page == pid)

/-- The interleaved `[addr0, value0, addr1, value1, ...]` data of one page. -/
def pagePairs (cells : List MemoryCell) (pid : Nat) : List Nat :=
  (pageCells cells pid).foldr (fun c acc => c.address :: c.value :: acc) []

/-- The values of one page in encounter order: the source's
`page.iter().skip(1).step_by(2)` over the interleaved data. -/
def pageValues (cells : List MemoryCell) (pid : Nat) : List Nat :=
  (pageCells cells pid).map (·.value)

/-! ## Permutation products (`calculate_product` and the per-page product maps) -/

/-- Function `calculate_product`: `prod * (z - (memory_address + alpha * memory_value)) mod prime`.
The source computes `(z - lin_comb + prime) % prime` over signed `BigInt`;
since `lin_comb < prime`, the `Nat` expression `(z + prime - lin_comb) % prime`
is the same value. -/
def calculateProduct (prod z alpha memAddr memValue prime : Nat) : Nat :=
  let linComb := (memAddr + alpha * memValue) % prime
  let factor := (z + prime - linComb) % prime
  prod * factor % prime

/-- One step of the source's product loop: `page_prods.entry(page).or_insert(1)`
followed by `*prod = calculate_product(...)`, on an association list. -/
def updatePageProds (z alpha : Nat) (prods : List (Nat × Nat)) (c : MemoryCell) : List (Nat × Nat) :=
  match prods with
  | [] => [(c.page, calculateProduct 1 z alpha c.address c.value KModulus)]
  | (p, v) :: rest =>
    if p == c.page then (p, calculateProduct v z alpha c.address c.value KModulus) :: rest
    else (p, v) :: updatePageProds z alpha rest c

/-- The final per-page products after folding all of `public_memory` in
encounter order (the source's `page_prods` HashMap, as an association list). -/
def pageProds (cells : List MemoryCell) (z alpha : Nat) : List (Nat × Nat) :=
  cells.foldl (updatePageProds z alpha) []

/-- Lookup `page_prods[&page_num]` (the key is always present when `page_num` is a
page id of `cells`). -/
def lookupProd (prods : List (Nat × Nat)) (pid : Nat) : Nat :=
  (prods.lookup pid).getD 0

/-! ## `prepare_memory_page_facts` -/

/-- Minimum address of a cell list, tracked as the source does starting from
the first cell (0 for an empty list, which cannot occur for a page id
actually present). -/
def minAddress : List MemoryCell → Nat
  | [] => 0
  | c :: cs => cs.foldl (fun m c2 => min m c2.address) c.address

def maxAddress : List MemoryCell → Nat
  | [] => 0
  | c :: cs => cs.foldl (fun m c2 => max m c2.address) c.address

/-- Assignment `values[offset] = val` with the source's `if offset < values.len()` guard:
out-of-range writes leave the list unchanged. -/
def setAt : List Nat → Nat → Nat → List Nat
  | [], _, _ => []
  | _ :: xs, 0, v => v :: xs
  | x :: xs, i + 1, v => x :: setAt xs i v

/-- Build one continuous page: dense value array over `[min, max]`, unseen
offsets zero-filled, later cells overwriting earlier ones at equal
addresses (the source writes in cell order into a zeroed vector). -/
def continuousPageOf (cells : List MemoryCell) (pid : Nat) : MemoryPageContinuous :=
  let cs := pageCells cells pid
  let start := minAddress cs
  let size := maxAddress cs - start + 1
  let values := cs.foldl (fun vs c => setAt vs (c.address - start) c.value) (List.replicate size 0)
  ⟨start, values⟩

/-- Sorted non-zero page ids: the source removes key 0 and sorts the rest. -/
def nonzeroPageIds (cells : List MemoryCell) : List Nat :=
  (sortedPageIds cells).filter (fun p => p != 0)

/-- Function `prepare_memory_page_facts`, on the already-parsed cells. -/
def prepareMemoryPageFactsCells (cells : List MemoryCell) : MemoryPageFacts :=
  let regular := if cells.any (fun c => c.page == 0) then some ⟨pagePairs cells 0⟩ else none
  ⟨regular, (nonzeroPageIds cells).map (continuousPageOf cells)⟩

def prepareMemoryPageFacts (p : AnnotatedProof) : MemoryPageFacts :=
  prepareMemoryPageFactsCells p.public_input.public_memory

/-! ## Page entries of the assembled public input -/

/-- Page-0 hash in `prepare_public_input_without_products` and
`memory_page_public_input_with_facts`: taken from
`memory_page_facts.regular_page.memory_pairs` when present, with a fallback
that hashes the page's own interleaved pairs. -/
def regularPageHashFromFacts (facts : MemoryPageFacts) (cells : List MemoryCell) : Nat :=
  match facts.regular_page with
  | some rp => keccak256 (bytesOfWords rp.memory_pairs)
  | none => keccak256 (bytesOfWords (pagePairs cells 0))

/-- The entry a continuous page contributes to the assembled vector:
the source pushes the page's first (encounter-order) address `page[0]`,
then the page size in cells, then the keccak hash of the page's values
in encounter order. -/
def continuousEntry (cells : List MemoryCell) (pid : Nat) : List Nat :=
  [(pagePairs cells pid).headD 0,
   (pagePairs cells pid).length / 2,
   keccak256 (bytesOfWords (pageValues cells pid))]

/-- Page loop of `prepare_public_input_without_products` and
`memory_page_public_input_with_facts`: the regular branch is taken when
`idx == 0 && page_num == 0`. -/
def pageEntriesAux (facts : MemoryPageFacts) (cells : List MemoryCell) : List Nat → Nat → List Nat
  | [], _ => []
  | pid :: rest, idx =>
    (if idx == 0 && pid == 0 then
      [(pagePairs cells pid).length / 2, regularPageHashFromFacts facts cells]
    else continuousEntry cells pid) ++ pageEntriesAux facts cells rest (idx + 1)

/-- Page loop of the plain `memory_page_public_input`: the regular branch is
taken for `idx == 0` regardless of the page id, hashing that page's
interleaved pairs. -/
def pageEntriesPlainAux (cells : List MemoryCell) : List Nat → Nat → List Nat
  | [], _ => []
  | pid :: rest, idx =>
    (if idx == 0 then
      [(pagePairs cells pid).length / 2, keccak256 (bytesOfWords (pagePairs cells pid))]
    else continuousEntry cells pid) ++ pageEntriesPlainAux cells rest (idx + 1)

/-- The padding `(address, value)` pair copied from the first memory cell
(`[0, 0]` when the memory is empty). -/
def paddingEntry (cells : List MemoryCell) : List Nat :=
  match cells with
  | [] => [0, 0]
  | c :: _ => [c.address, c.value]

/-- Page count as `memory_page_public_input_with_facts` and
`prepare_public_input_without_products` compute it, from the facts. -/
def nPagesFromFacts (facts : MemoryPageFacts) : Nat :=
  (if facts.regular_page.isSome then 1 else 0) + facts.continuous_pages.length

/-! ## The two assembler variants over memory pages -/

/-- Function `memory_page_public_input` (lines 512-617). -/
def memoryPagePublicInput (cells : List MemoryCell) (z alpha : Nat) : List Nat :=
  paddingEntry cells ++
  [(sortedPageIds cells).length] ++
  pageEntriesPlainAux cells (sortedPageIds cells) 0 ++
  (sortedPageIds cells).map (lookupProd (pageProds cells z alpha))

/-- Function `memory_page_public_input_with_facts` (lines 376-510). -/
def memoryPagePublicInputWithFacts (cells : List MemoryCell) (z alpha : Nat)
    (facts : MemoryPageFacts) : List Nat :=
  paddingEntry cells ++
  [nPagesFromFacts facts] ++
  pageEntriesAux facts cells (sortedPageIds cells) 0 ++
  (sortedPageIds cells).map (lookupProd (pageProds cells z alpha))

/-! ## `serialize_segments`, layout tag, `prepare_public_input_without_products` -/

def segmentNames : List String :=
  ["program", "execution", "output", "pedersen", "range_check", "ecdsa", "bitwise", "ec_op", "keccak", "poseidon"]

def serializeSegments (pub : PublicInput) : List Nat :=
  segmentNames.flatMap fun name =>
    match pub.memory_segments.lookup name with
    | some seg => [seg.begin_addr, seg.stop_ptr]
    | none => []

/-- Layout tag as the big-endian integer of its ASCII bytes
(`BigInt::from_bytes_be(Sign::Plus, layout.as_bytes())`; layouts are ASCII). -/
def layoutBig (layout : String) : Nat :=
  layout.data.foldl (fun acc c => acc * 256 + c.toNat) 0

/-- Header of `prepare_public_input_without_products` (lines 803-940):
verifier-friendly-commitment-layer count (default 0 when absent),
log2(n_steps), range-check bounds, layout tag, segments, padding pair. -/
def publicInputHeader (p : AnnotatedProof) : List Nat :=
  let pub := p.public_input
  [p.proof_parameters.n_verifier_friendly_commitment_layers.getD 0,
   log2Floor pub.n_steps,
   pub.rc_min,
   pub.rc_max,
   layoutBig pub.layout] ++
  serializeSegments pub ++
  paddingEntry pub.public_memory

def preparePublicInputWithoutProducts (p : AnnotatedProof) (facts : MemoryPageFacts) : List Nat :=
  publicInputHeader p ++
  [nPagesFromFacts facts] ++
  pageEntriesAux facts p.public_input.public_memory (sortedPageIds p.public_input.public_memory) 0

/-- Function `compute_public_input_hash`: keccak over the 32-byte serializations. -/
def computePublicInputHash (ws : List Nat) : Nat :=
  keccak256 (bytesOfWords ws)

/-! ## Challenge transcript replay
(`compute_interaction_elements_from_hash_and_proof`, lines 200-301)

The source's `while field_element >= bound` loop has no a-priori iteration
bound, so it is modelled with fuel; `none` means the fuel ran out while the
candidate was still above the bound (each retry succeeds with probability
about 31/32, so small fuel suffices on every concrete input). -/

/-- Bound `31 * K_MODULUS` (from VerifierChannel.sendFieldElements). -/
def challengeBound : Nat := 31 * KModulus

/-- The retry loop exactly as the source runs it: the source keeps a
`field_element` candidate alongside `digest`; on a retry it first
increments the counter, then sets both to
`keccak256(digest ‖ counter_as_32_bytes)` with the incremented counter.
Returns (accepted candidate, digest, counter). -/
def feLoop (fuel : Nat) (fe digest counter : Nat) : Option (Nat × Nat × Nat) :=
  if fe < challengeBound then some (fe, digest, counter)
  else match fuel with
    | 0 => none
    | fuel' + 1 =>
      let counter' := counter + 1
      let h := keccak256 (toBytes32 digest ++ toBytes32 counter')
      feLoop fuel' h h counter'

/-- One iteration of the source's `for _ in 0..2` body: run the retry loop
starting from the digest itself as candidate, unscale the accepted value by
the Montgomery inverse, then advance the state once more (counter
incremented, then hashed). Returns (challenge, digest, counter). -/
def drawAndAdvance (fuel digest counter : Nat) : Option (Nat × Nat × Nat) :=
  match feLoop fuel digest digest counter with
  | none => none
  | some (fe, d, c) =>
    let value := fe * KMontgomeryRInv % KModulus
    let c' := c + 1
    some (value, keccak256 (toBytes32 d ++ toBytes32 c'), c')

/-- Mixing of the first proof word (the trace commitment) into the PRNG
state: digest incremented by 1 modulo 2^256, then
`digest = keccak256(digest_plus_one ‖ trace_commitment)`, counter 0.
An empty proof skips the mix (`if proof.len() > 0`). -/
def mixTraceCommitment (hash : Nat) (proof : List Nat) : Nat × Nat :=
  match proof with
  | [] => (hash, 0)
  | tc :: _ => (keccak256 (toBytes32 ((hash + 1) % two256) ++ toBytes32 tc), 0)

/-- Function `compute_interaction_elements_from_hash_and_proof`: mix the trace
commitment, then draw z and alpha. -/
def computeInteractionElementsFromHashAndProof (fuel : Nat) (hash : Nat) (proof : List Nat) :
    Option (Nat × Nat) :=
  let s := mixTraceCommitment hash proof
  match drawAndAdvance fuel s.1 s.2 with
  | none => none
  | some (z, d1, c1) =>
    match drawAndAdvance fuel d1 c1 with
    | none => none
    | some (alpha, _, _) => some (z, alpha)

/-! ## Annotation scanning (`extract_interaction_elements`, lines 155-176)

The source scans every annotation line with the regex
`V->P: /cpu air/STARK/Interaction: Interaction element #\d+: Field Element\(0x([0-9a-f]+)\)`
collecting every capture in order.  Because neither greedy run in the
pattern can consume the literal that follows it, the regex is equivalent to
the direct left-to-right scanner below (maximal digit / lowercase-hex runs,
resuming after each match). -/

def isDigitCh (c : Char) : Bool := decide ('0' ≤ c) && decide (c ≤ '9')

def isLowerHexDigit (c : Char) : Bool :=
  (decide ('0' ≤ c) && decide (c ≤ '9')) || (decide ('a' ≤ c) && decide (c ≤ 'f'))

/-- Value of a lowercase hex digit. -/
def lowerHexVal (c : Char) : Nat :=
  if decide (c ≤ '9') then c.toNat - 48 else c.toNat - 87

def matchLit : List Char → List Char → Option (List Char)
  | [], rest => some rest
  | _ :: _, [] => none
  | l :: ls, c :: cs => if c == l then matchLit ls cs else none

def interactionPatternA : List Char :=
  "V->P: /cpu air/STARK/Interaction: Interaction element #".data

def interactionPatternB : List Char := ": Field Element(0x".data

/-- Try to match the full pattern at the head of `cs`; on success return the
captured hex value and the remainder after the match. -/
def matchInteractionAt (cs : List Char) : Option (Nat × List Char) :=
  match matchLit interactionPatternA cs with
  | none => none
  | some r1 =>
    let ds := r1.takeWhile isDigitCh
    let r2 := r1.dropWhile isDigitCh
    if ds.isEmpty then none
    else match matchLit interactionPatternB r2 with
      | none => none
      | some r3 =>
        let hs := r3.takeWhile isLowerHexDigit
        let r4 := r3.dropWhile isLowerHexDigit
        if hs.isEmpty then none
        else match r4 with
          | ')' :: rest => some (hs.foldl (fun a c => a * 16 + lowerHexVal c) 0, rest)
          | _ => none

/-- Left-to-right scan of one line (`captures_iter`), fuelled by the line
length: every step consumes at least one character. -/
def scanInteractionAux : Nat → List Char → List Nat
  | 0, _ => []
  | _ + 1, [] => []
  | fuel + 1, c :: cs =>
    match matchInteractionAt (c :: cs) with
    | some (v, rest) => v :: scanInteractionAux fuel rest
    | none => scanInteractionAux fuel cs

def scanInteractionLine (cs : List Char) : List Nat :=
  scanInteractionAux cs.length cs

/-- Function `extract_interaction_elements`: all captures over all lines in order;
the source panics when fewer than two are found (modelled as `none`), and
returns the first two otherwise. -/
def extractInteractionElements (lines : List String) : Option (Nat × Nat) :=
  match lines.flatMap (fun l => scanInteractionLine l.data) with
  | e0 :: e1 :: _ => some (e0, e1)
  | _ => none

/-! ## Proof hex decoding (`decode_hex`, `proof_hex_to_int_list`, lines 303-329) -/

/-- Hex digit value (both cases, as `from_str_radix` accepts). -/
def hexDigitVal (c : Char) : Option Nat :=
  if decide ('0' ≤ c) && decide (c ≤ '9') then some (c.toNat - 48)
  else if decide ('a' ≤ c) && decide (c ≤ 'f') then some (c.toNat - 87)
  else if decide ('A' ≤ c) && decide (c ≤ 'F') then some (c.toNat - 55)
  else none

def parseHexDigits (cs : List Char) : Option Nat :=
  if cs.isEmpty then none
  else cs.foldl (fun acc c =>
    match acc, hexDigitVal c with
    | some a, some d => if a * 16 + d ≤ 255 then some (a * 16 + d) else none
    | _, _ => none) (some 0)

/-- Parse as `u8::from_str_radix(s, 16)` does: optional sign (a negative value is only
accepted when it is zero), hex digits of either case, overflow above 255
rejected. -/
def u8FromStrRadix16 : List Char → Option Nat
  | [] => none
  | '+' :: rest => parseHexDigits rest
  | '-' :: rest =>
    (match parseHexDigits rest with
     | some 0 => some 0
     | _ => none)
  | cs => parseHexDigits cs

/-- The body of `decode_hex` after prefix stripping: steps through the
characters two at a time (`step_by(2)`, the final chunk possibly a single
character), parsing each chunk with `from_str_radix` and silently replacing
a failed parse by 0 (`unwrap_or(0)`). -/
def decodeHexCore : List Char → List Nat
  | [] => []
  | [c] => [(u8FromStrRadix16 [c]).getD 0]
  | c1 :: c2 :: rest => (u8FromStrRadix16 [c1, c2]).getD 0 :: decodeHexCore rest

/-- Strip a leading "0x" as the source's `strip_prefix` call does. -/
def stripHexMarker : List Char → List Char
  | '0' :: 'x' :: rest => rest
  | cs => cs

def decodeHex (s : String) : List Nat :=
  decodeHexCore (stripHexMarker s.data)

/-- Zero-pad a byte list at the end to a multiple of 32 bytes. -/
def padToMultiple32 (bs : List Nat) : List Nat :=
  bs ++ List.replicate ((32 - bs.length % 32) % 32) 0

/-- Split (padded) bytes into 32-byte chunks, each read big-endian. -/
def wordsOfBytes (bs : List Nat) : List Nat :=
  (List.range ((bs.length + 31) / 32)).map fun i => fromBytesBE ((bs.drop (32 * i)).take 32)

/-- Function `proof_hex_to_int_list`. -/
def proofHexToIntList (s : String) : List Nat :=
  wordsOfBytes (padToMultiple32 (decodeHex s))

/-! ## `proof_params` and `prepare_verifier_input` -/

/-- Function `proof_params` (lines 690-712). -/
def proofParams (p : AnnotatedProof) : List Nat :=
  let fri := p.proof_parameters.stark.fri
  [fri.n_queries,
   p.proof_parameters.stark.log_n_cosets,
   fri.proof_of_work_bits,
   clog2Ceil fri.last_layer_degree_bound,
   fri.fri_step_list.length] ++ fri.fri_step_list

/-- Function `prepare_verifier_input` (lines 942-1007): convert the proof hex, build
the memory page facts, assemble the product-free public input, take z and
alpha from the annotations (the replay functions are never invoked), append
the per-page products in sorted page order.  The annotation extraction
panic is the only failure point, modelled as `none`. -/
def prepareVerifierInput (p : AnnotatedProof) : Option VerifierInput :=
  let proof := proofHexToIntList p.proof_hex
  let pparams := proofParams p
  let facts := prepareMemoryPageFacts p
  let base := preparePublicInputWithoutProducts p facts
  match extractInteractionElements p.annotations with
  | none => none
  | some (z, alpha) =>
    let cells := p.public_input.public_memory
    let publicInput := base ++ (sortedPageIds cells).map (lookupProd (pageProds cells z alpha))
    some ⟨pparams, proof, publicInput, z, alpha, facts⟩

/-- The composition the spec describes for cross-checking: hash the
product-free public input and replay the transcript on it together with the
decoded proof.  (The source defines both ingredients but never calls them
from `prepare_verifier_input`.) -/
def replayedInteractionPair (fuel : Nat) (p : AnnotatedProof) : Option (Nat × Nat) :=
  computeInteractionElementsFromHashAndProof fuel
    (computePublicInputHash (preparePublicInputWithoutProducts p (prepareMemoryPageFacts p)))
    (proofHexToIntList p.proof_hex)


/-! ## Claim-side definitions

For the refinement-style claims, a second set of definitions follows the
words of the specification / claim; each is compared with the source-derived
definition above. -/

/-- Claim C1's wording of the retry loop (spec 4.4): while the digest, read
as a big-endian integer, is at least 31 times the modulus, advance by
hashing `digest ‖ counter_as_32_bytes` and incrementing the counter — the
hash therefore uses the counter value from before the increment.  Returns
(accepted digest, counter). -/
def claimFeLoop (fuel digest counter : Nat) : Option (Nat × Nat) :=
  if digest < challengeBound then some (digest, counter)
  else match fuel with
    | 0 => none
    | fuel' + 1 =>
      claimFeLoop fuel' (keccak256 (toBytes32 digest ++ toBytes32 counter)) (counter + 1)

/-- Claim C1's wording of one challenge: accept a digest below the bound,
multiply by the Montgomery inverse modulo the prime, then advance
digest/counter once more by the same counter-hash step (hash with the
current counter, then increment). -/
def claimDrawAndAdvance (fuel digest counter : Nat) : Option (Nat × Nat × Nat) :=
  match claimFeLoop fuel digest counter with
  | none => none
  | some (d, c) =>
    some (d * KMontgomeryRInv % KModulus, keccak256 (toBytes32 d ++ toBytes32 c), c + 1)

/-- Claim C1's full transcript replay as worded: mix the first proof word,
then draw z and alpha with the hash-then-increment advance step. -/
def claimInteractionElements (fuel hash : Nat) (proof : List Nat) : Option (Nat × Nat) :=
  let s := mixTraceCommitment hash proof
  match claimDrawAndAdvance fuel s.1 s.2 with
  | none => none
  | some (z, d1, c1) =>
    match claimDrawAndAdvance fuel d1 c1 with
    | none => none
    | some (alpha, _, _) => some (z, alpha)

/-- Amended wording of the retry loop: the advance step increments the
counter first and hashes `digest ‖ (counter+1)`, as the source does. -/
def amendedFeLoop (fuel digest counter : Nat) : Option (Nat × Nat) :=
  if digest < challengeBound then some (digest, counter)
  else match fuel with
    | 0 => none
    | fuel' + 1 =>
      amendedFeLoop fuel' (keccak256 (toBytes32 digest ++ toBytes32 (counter + 1))) (counter + 1)

def amendedDrawAndAdvance (fuel digest counter : Nat) : Option (Nat × Nat × Nat) :=
  match amendedFeLoop fuel digest counter with
  | none => none
  | some (d, c) =>
    some (d * KMontgomeryRInv % KModulus, keccak256 (toBytes32 d ++ toBytes32 (c + 1)), c + 1)

/-- The amended claim C1 process: as claimed, but every counter-hash
advance increments the counter before hashing it. -/
def amendedInteractionElements (fuel hash : Nat) (proof : List Nat) : Option (Nat × Nat) :=
  let s := mixTraceCommitment hash proof
  match amendedDrawAndAdvance fuel s.1 s.2 with
  | none => none
  | some (z, d1, c1) =>
    match amendedDrawAndAdvance fuel d1 c1 with
    | none => none
    | some (alpha, _, _) => some (z, alpha)

/-- Claim C2's dense continuous-page hash: the values over the dense
address range [min, max] in ascending order, absent addresses zero-filled —
this is exactly the value array `prepare_memory_page_facts` builds. -/
def claimedContinuousHash (cells : List MemoryCell) (pid : Nat) : Nat :=
  keccak256 (bytesOfWords (continuousPageOf cells pid).values)

/-- Claim C3's page-0 data: the interleaved (address, value) sequence in
original cell order. -/
def interleavedPageZero (cells : List MemoryCell) : List Nat :=
  (cells.filter (fun c => c.page == 0)).flatMap fun c => [c.address, c.value]

/-- Claim C5's product fold: starting at 1, multiply by
`(z − (address + alpha·value)) mod modulus`, every intermediate result
normalized into `[0, modulus)`. -/
def claimProductFold (z alpha : Nat) (cs : List MemoryCell) : Nat :=
  cs.foldl
    (fun prod c =>
      prod * (((z : Int) - ((c.address : Int) + (alpha : Int) * (c.value : Int))) % (KModulus : Int)).toNat
        % KModulus)
    1

/-- Page size in cells, as claim C4 words it. -/
def pageSizeInCells (cells : List MemoryCell) (pid : Nat) : Nat :=
  (pageCells cells pid).length

/-- The page hash per sorted page (page 0 regular, others values-only). -/
def pageHashOf (cells : List MemoryCell) (pid : Nat) : Nat :=
  if pid == 0 then keccak256 (bytesOfWords (pagePairs cells 0))
  else keccak256 (bytesOfWords (pageValues cells pid))

/-- The start address carried for a continuous page. -/
def pageStartOf (cells : List MemoryCell) (pid : Nat) : Nat :=
  (pagePairs cells pid).headD 0

/-- Claim C4's asserted layout: per sorted page, page size in cells, page
hash, and — for continuous pages only — the start address, in that order,
followed by one permutation product per page. -/
def claimedPublicInputC4 (p : AnnotatedProof) (z alpha : Nat) : List Nat :=
  let cells := p.public_input.public_memory
  publicInputHeader p ++
  [(sortedPageIds cells).length] ++
  ((sortedPageIds cells).flatMap fun pid =>
    [pageSizeInCells cells pid, pageHashOf cells pid] ++
    (if pid == 0 then [] else [pageStartOf cells pid])) ++
  (sortedPageIds cells).map (lookupProd (pageProds cells z alpha))

/-- The amended claim C4 layout: identical except that a continuous page
contributes its start address before its size and hash, as the source and
the on-chain page-info layout (address, size, hash) do. -/
def claimedPublicInputC4Amended (p : AnnotatedProof) (z alpha : Nat) : List Nat :=
  let cells := p.public_input.public_memory
  publicInputHeader p ++
  [(sortedPageIds cells).length] ++
  ((sortedPageIds cells).flatMap fun pid =>
    (if pid == 0 then [] else [pageStartOf cells pid]) ++
    [pageSizeInCells cells pid, pageHashOf cells pid]) ++
  (sortedPageIds cells).map (lookupProd (pageProds cells z alpha))

/-! ## Concrete sample inputs for witnesses and counterexamples -/

def sampleCells : List MemoryCell := [⟨0, 1, 5⟩, ⟨0, 2, 7⟩, ⟨1, 10, 11⟩, ⟨1, 12, 13⟩]

def sampleAnnotations : List String :=
  ["V->P: /cpu air/STARK/Interaction: Interaction element #0: Field Element(0x3)",
   "V->P: /cpu air/STARK/Interaction: Interaction element #1: Field Element(0x2)"]

def samplePublicInput : PublicInput :=
  ⟨4, 1, 9, "plain", [("program", ⟨1, 5⟩), ("execution", ⟨5, 10⟩)], sampleCells⟩

def sampleProofParameters : ProofParameters := ⟨⟨2, ⟨10, 30, 64, [0, 4, 3]⟩⟩, none⟩

def sampleProof : AnnotatedProof :=
  ⟨sampleAnnotations,
   "0x0000000000000000000000000000000000000000000000000000000000000001",
   samplePublicInput, sampleProofParameters⟩

/-- Annotations whose first interaction element equals the field modulus
itself (a value the prover would never emit, but which the pipeline
accepts unchecked). -/
def sampleAnnotationsBigZ : List String :=
  ["V->P: /cpu air/STARK/Interaction: Interaction element #0: Field Element(0x800000000000011000000000000000000000000000000000000000000000001)",
   "V->P: /cpu air/STARK/Interaction: Interaction element #1: Field Element(0x2)"]

def sampleProofBigZ : AnnotatedProof :=
  ⟨sampleAnnotationsBigZ,
   "0x0000000000000000000000000000000000000000000000000000000000000001",
   samplePublicInput, sampleProofParameters⟩

/-- The two-cell page-0 memory of the spec's worked product example. -/
def exampleCellsC5 : List MemoryCell := [⟨0, 1, 5⟩, ⟨0, 2, 7⟩]

/-! ## Helper lemmas about page grouping -/

theorem mem_dedupFirst : ∀ {l : List Nat} {a : Nat}, a ∈ dedupFirst l ↔ a ∈ l := by
  intro l
  induction l with
  | nil => intro a; simp [dedupFirst]
  | cons x xs ih =>
    intro a
    by_cases h : a = x
    · subst h; simp [dedupFirst]
    · simp [dedupFirst, List.mem_filter, h, ih]

theorem nodup_dedupFirst : ∀ l : List Nat, (dedupFirst l).Nodup := by
  intro l
  induction l with
  | nil => simp [dedupFirst]
  | cons x xs ih =>
    refine List.nodup_cons.mpr ⟨?_, ih.filter _⟩
    intro hmem
    have := (List.mem_filter.mp hmem).2
    simp at this

theorem mem_sortedPageIds {cells : List MemoryCell} {a : Nat} :
    a ∈ sortedPageIds cells ↔ a ∈ cells.map (·.page) := by
  unfold sortedPageIds
  rw [List.mem_insertionSort]
  exact mem_dedupFirst

theorem nodup_sortedPageIds (cells : List MemoryCell) : (sortedPageIds cells).Nodup :=
  ((List.perm_insertionSort _ _).nodup_iff).mpr (nodup_dedupFirst _)

theorem sorted_sortedPageIds (cells : List MemoryCell) :
    List.Sorted (· ≤ ·) (sortedPageIds cells) :=
  List.sorted_insertionSort _ _

theorem sortedPageIds_zero_cons {cells : List MemoryCell} (h : 0 ∈ cells.map (·.page)) :
    ∃ t, sortedPageIds cells = 0 :: t ∧ 0 ∉ t := by
  have hmem : 0 ∈ sortedPageIds cells := mem_sortedPageIds.mpr h
  have hs := sorted_sortedPageIds cells
  have hn := nodup_sortedPageIds cells
  cases hl : sortedPageIds cells with
  | nil => rw [hl] at hmem; simp at hmem
  | cons x t =>
    rw [hl] at hmem hs hn
    have hx : x = 0 := by
      rcases List.mem_cons.mp hmem with h0 | h0
      · exact h0.symm
      · have := (List.sorted_cons.mp hs).1 0 h0
        omega
    subst hx
    exact ⟨t, rfl, (List.nodup_cons.mp hn).1⟩

theorem nonzeroPageIds_of_zero {cells : List MemoryCell} {t : List Nat}
    (hl : sortedPageIds cells = 0 :: t) (h0 : 0 ∉ t) : nonzeroPageIds cells = t := by
  unfold nonzeroPageIds
  rw [hl]
  rw [List.filter_cons]
  simp only [bne_self_eq_false, if_false]
  exact List.filter_eq_self.mpr fun x hx => by
    have : x ≠ 0 := fun hx0 => h0 (hx0 ▸ hx)
    simpa using this

theorem nonzeroPageIds_of_no_zero {cells : List MemoryCell}
    (h : 0 ∉ cells.map (·.page)) : nonzeroPageIds cells = sortedPageIds cells := by
  unfold nonzeroPageIds
  exact List.filter_eq_self.mpr fun x hx => by
    have : x ≠ 0 := fun hx0 => h (mem_sortedPageIds.mp (hx0 ▸ hx))
    simpa using this

theorem length_pagePairs (cells : List MemoryCell) (pid : Nat) :
    (pagePairs cells pid).length = 2 * (pageCells cells pid).length := by
  unfold pagePairs
  induction pageCells cells pid with
  | nil => rfl
  | cons c cs ih => simp only [List.foldr_cons, List.length_cons, ih]; omega

theorem pagePairs_eq_flatMap (cells : List MemoryCell) (pid : Nat) :
    pagePairs cells pid = (pageCells cells pid).flatMap fun c => [c.address, c.value] := by
  unfold pagePairs
  induction pageCells cells pid with
  | nil => rfl
  | cons c cs ih => simp only [List.foldr_cons, List.flatMap_cons, ih]; rfl

/-! ## Helper lemmas about page entries and the facts structure -/

theorem pageEntriesAux_succ (facts : MemoryPageFacts) (cells : List MemoryCell) :
    ∀ (ids : List Nat) (idx : Nat),
      pageEntriesAux facts cells ids (idx + 1) = ids.flatMap (continuousEntry cells) := by
  intro ids
  induction ids with
  | nil => intro idx; rfl
  | cons pid rest ih =>
    intro idx
    simp only [pageEntriesAux, List.flatMap_cons]
    rw [ih (idx + 1)]
    simp

theorem pageEntriesAux_no_zero (facts : MemoryPageFacts) (cells : List MemoryCell)
    (ids : List Nat) (h : ∀ pid ∈ ids, pid ≠ 0) :
    ∀ idx, pageEntriesAux facts cells ids idx = ids.flatMap (continuousEntry cells) := by
  cases ids with
  | nil => intro idx; rfl
  | cons pid rest =>
    intro idx
    have hpid : pid ≠ 0 := h pid (List.mem_cons_self _ _)
    simp only [pageEntriesAux, List.flatMap_cons]
    rw [pageEntriesAux_succ]
    have : (pid == 0) = false := by simpa using hpid
    simp [this]

theorem pageEntriesPlainAux_succ (cells : List MemoryCell) :
    ∀ (ids : List Nat) (idx : Nat),
      pageEntriesPlainAux cells ids (idx + 1) = ids.flatMap (continuousEntry cells) := by
  intro ids
  induction ids with
  | nil => intro idx; rfl
  | cons pid rest ih =>
    intro idx
    simp only [pageEntriesPlainAux, List.flatMap_cons]
    rw [ih (idx + 1)]
    simp

theorem pageEntriesAux_contains (facts : MemoryPageFacts) (cells : List MemoryCell) :
    ∀ (ids : List Nat) (idx pid : Nat), pid ∈ ids → pid ≠ 0 →
      ∃ pre post, pageEntriesAux facts cells ids idx = pre ++ continuousEntry cells pid ++ post := by
  intro ids
  induction ids with
  | nil => intro idx pid h; simp at h
  | cons x rest ih =>
    intro idx pid hmem hpid
    rcases List.mem_cons.mp hmem with hx | hx
    · subst hx
      have : (pid == 0) = false := by simpa using hpid
      refine ⟨[], pageEntriesAux facts cells rest (idx + 1), ?_⟩
      simp [pageEntriesAux, this]
    · obtain ⟨pre, post, hpp⟩ := ih (idx + 1) pid hx hpid
      refine ⟨(if idx == 0 && x == 0 then
          [(pagePairs cells x).length / 2, regularPageHashFromFacts facts cells]
        else continuousEntry cells x) ++ pre, post, ?_⟩
      simp only [pageEntriesAux, hpp]
      simp

theorem regular_page_of_zero {cells : List MemoryCell} (h : 0 ∈ cells.map (·.page)) :
    (prepareMemoryPageFactsCells cells).regular_page = some ⟨pagePairs cells 0⟩ := by
  unfold prepareMemoryPageFactsCells
  have : cells.any (fun c => c.page == 0) = true := by
    rw [List.any_eq_true]
    obtain ⟨c, hc, hcp⟩ := List.mem_map.mp h
    exact ⟨c, hc, by simpa using hcp⟩
  simp [this]

theorem regular_page_of_no_zero {cells : List MemoryCell} (h : 0 ∉ cells.map (·.page)) :
    (prepareMemoryPageFactsCells cells).regular_page = none := by
  unfold prepareMemoryPageFactsCells
  have : cells.any (fun c => c.page == 0) = false := by
    rw [List.any_eq_false]
    intro c hc
    intro hcp
    exact h (List.mem_map.mpr ⟨c, hc, by simpa using hcp⟩)
  simp [this]

theorem regularPageHashFromFacts_pipeline (cells : List MemoryCell) :
    regularPageHashFromFacts (prepareMemoryPageFactsCells cells) cells =
      keccak256 (bytesOfWords (pagePairs cells 0)) := by
  unfold regularPageHashFromFacts
  by_cases h : 0 ∈ cells.map (·.page)
  · rw [regular_page_of_zero h]
  · rw [regular_page_of_no_zero h]

theorem continuous_pages_pipeline (cells : List MemoryCell) :
    (prepareMemoryPageFactsCells cells).continuous_pages =
      (nonzeroPageIds cells).map (continuousPageOf cells) := by
  unfold prepareMemoryPageFactsCells
  by_cases h : cells.any (fun c => c.page == 0) <;> simp [h]

theorem nPages_pipeline (cells : List MemoryCell) :
    nPagesFromFacts (prepareMemoryPageFactsCells cells) = (sortedPageIds cells).length := by
  unfold nPagesFromFacts
  rw [continuous_pages_pipeline]
  by_cases h : 0 ∈ cells.map (·.page)
  · rw [regular_page_of_zero h]
    obtain ⟨t, hl, h0⟩ := sortedPageIds_zero_cons h
    rw [nonzeroPageIds_of_zero hl h0, hl]
    simp
    omega
  · rw [regular_page_of_no_zero h, nonzeroPageIds_of_no_zero h]
    simp

/-! ## Helper lemmas about the permutation products -/

/-- Folding `calculate_product` over a cell list from a given start value. -/
def srcFold (z alpha start : Nat) (cs : List MemoryCell) : Nat :=
  cs.foldl (fun pr c => calculateProduct pr z alpha c.address c.value KModulus) start

theorem srcFold_cons (z alpha start : Nat) (c : MemoryCell) (cs : List MemoryCell) :
    srcFold z alpha start (c :: cs) =
      srcFold z alpha (calculateProduct start z alpha c.address c.value KModulus) cs := rfl

theorem lookup_updatePageProds (z alpha : Nat) (c : MemoryCell) (pid : Nat) :
    ∀ acc : List (Nat × Nat),
      (updatePageProds z alpha acc c).lookup pid =
        if pid = c.page then
          some (calculateProduct ((acc.lookup pid).getD 1) z alpha c.address c.value KModulus)
        else acc.lookup pid := by
  intro acc
  induction acc with
  | nil =>
    by_cases h : pid = c.page
    · subst h
      simp [updatePageProds, List.lookup]
    · have hb : (pid == c.page) = false := by simpa using h
      simp [updatePageProds, List.lookup, hb, h]
  | cons pv rest ih =>
    obtain ⟨p, v⟩ := pv
    by_cases hp : p = c.page
    · subst hp
      by_cases hpid : pid = c.page
      · subst hpid
        simp [updatePageProds, List.lookup]
      · have hb : (pid == c.page) = false := by simpa using hpid
        simp [updatePageProds, List.lookup, hb, hpid]
    · have hbp : (p == c.page) = false := by simpa using hp
      by_cases hpid : pid = p
      · subst hpid
        have hne : pid ≠ c.page := hp
        simp [updatePageProds, List.lookup, hbp, hne]
      · have hb : (pid == p) = false := by simpa using hpid
        simp [updatePageProds, List.lookup, hbp, hb, ih]

theorem pageProds_foldl_lookup (z alpha : Nat) :
    ∀ (cells : List MemoryCell) (acc : List (Nat × Nat)) (pid : Nat),
      (cells.foldl (updatePageProds z alpha) acc).lookup pid =
        match acc.lookup pid with
        | some v => some (srcFold z alpha v (pageCells cells pid))
        | none =>
          if (pageCells cells pid).isEmpty then none
          else some (srcFold z alpha 1 (pageCells cells pid)) := by
  intro cells
  induction cells with
  | nil =>
    intro acc pid
    cases h : acc.lookup pid <;> simp [pageCells, srcFold, h]
  | cons c cs ih =>
    intro acc pid
    rw [List.foldl_cons, ih]
    rw [lookup_updatePageProds]
    by_cases hp : pid = c.page
    · have hcell : pageCells (c :: cs) pid = c :: pageCells cs pid := by
        simp [pageCells, List.filter_cons, hp.symm]
      rw [hcell]
      cases h : acc.lookup pid with
      | some v => simp [hp, h, srcFold_cons]
      | none => simp [hp, h, srcFold_cons]
    · have hcell : pageCells (c :: cs) pid = pageCells cs pid := by
        have : (c.page == pid) = false := by simpa using fun hx => hp hx.symm
        simp [pageCells, List.filter_cons, this]
      rw [hcell]
      simp [hp]

theorem pageCells_ne_nil {cells : List MemoryCell} {pid : Nat}
    (h : pid ∈ cells.map (·.page)) : (pageCells cells pid).isEmpty = false := by
  obtain ⟨c, hc, hcp⟩ := List.mem_map.mp h
  have : c ∈ pageCells cells pid := List.mem_filter.mpr ⟨hc, by simpa using hcp⟩
  cases hpc : pageCells cells pid with
  | nil => rw [hpc] at this; simp at this
  | cons x xs => rfl

theorem lookupProd_pageProds {cells : List MemoryCell} {pid : Nat} (z alpha : Nat)
    (h : pid ∈ cells.map (·.page)) :
    lookupProd (pageProds cells z alpha) pid = srcFold z alpha 1 (pageCells cells pid) := by
  unfold lookupProd pageProds
  rw [pageProds_foldl_lookup]
  simp [List.lookup, pageCells_ne_nil h]

theorem factor_eq (z L : Nat) :
    (z + KModulus - L % KModulus) % KModulus =
      (((z : Int) - (L : Int)) % (KModulus : Int)).toNat := by
  simp only [KModulus]
  omega

theorem calculateProduct_eq_claim (pr z alpha a v : Nat) :
    calculateProduct pr z alpha a v KModulus =
      pr * (((z : Int) - ((a : Int) + (alpha : Int) * (v : Int))) % (KModulus : Int)).toNat
        % KModulus := by
  simp only [calculateProduct]
  rw [factor_eq z (a + alpha * v)]
  push_cast
  ring_nf

theorem srcFold_eq_claimFold (z alpha : Nat) :
    ∀ (cs : List MemoryCell) (start : Nat),
      srcFold z alpha start cs =
        cs.foldl
          (fun prod c =>
            prod *
              (((z : Int) - ((c.address : Int) + (alpha : Int) * (c.value : Int))) %
                  (KModulus : Int)).toNat % KModulus)
          start := by
  intro cs
  induction cs with
  | nil => intro start; rfl
  | cons c cs ih =>
    intro start
    rw [srcFold_cons, List.foldl_cons, ih, calculateProduct_eq_claim]

/-! ## Helper lemmas for the transcript replay -/

theorem feLoop_eq_amended : ∀ fuel d c : Nat,
    feLoop fuel d d c = (amendedFeLoop fuel d c).map fun p => (p.1, p.1, p.2) := by
  intro fuel
  induction fuel with
  | zero =>
    intro d c
    unfold feLoop amendedFeLoop
    by_cases h : d < challengeBound <;> simp [h]
  | succ fuel ih =>
    intro d c
    unfold feLoop amendedFeLoop
    by_cases h : d < challengeBound
    · simp [h]
    · simp only [h, if_false]
      exact ih _ _

theorem drawAndAdvance_eq_amended (fuel d c : Nat) :
    drawAndAdvance fuel d c = amendedDrawAndAdvance fuel d c := by
  unfold drawAndAdvance amendedDrawAndAdvance
  rw [feLoop_eq_amended]
  cases amendedFeLoop fuel d c with
  | none => rfl
  | some p => rfl

theorem computeInteraction_eq_amended (fuel hash : Nat) (proof : List Nat) :
    computeInteractionElementsFromHashAndProof fuel hash proof =
      amendedInteractionElements fuel hash proof := by
  unfold computeInteractionElementsFromHashAndProof amendedInteractionElements
  simp only [drawAndAdvance_eq_amended]

/-! ## Claim theorems -/

/-- Claim C9 (code bug evidence): the terminal verifier-input artifact is
claimed to contain a `task_metadata` field (equal to `[0]` when no
fact-topology file is supplied), but the `VerifierInput` struct the
pipeline serializes has no such field at all — its serialized keys are
exactly proof_params, proof, public_input, z, alpha, memory_page_facts.
The repository's own consumer (`verify_proof_split`) fails with
"task_metadata not found in input.json" on this output. -/
theorem c9_no_task_metadata_field : "task_metadata" ∉ VerifierInput.serializedKeys := by
  decide

/-- Claim C8 counterexample: the codec does not reject odd-length or
non-hex proof strings.  For "0x123" (odd length 3 after stripping) the
trailing lone nibble is parsed as the byte 3, giving bytes [18, 3]; for the
non-hex "0xzz" the unparseable pair is silently replaced by 0
(`unwrap_or(0)`) and the run continues, padding to a full 32-byte word. -/
theorem c8_counterexample :
    decodeHex "0x123" = [18, 3] ∧
    u8FromStrRadix16 [ 'z', 'z' ] = none ∧
    decodeHex "0xzz" = [0] ∧
    proofHexToIntList "0xzz" = [0] := by
  decide

/-- Claim C8 (amended): `decode_hex` never rejects any input: it always
produces one byte per two characters (a final odd character becomes its
own one-digit parse), with every unparseable group mapped to 0; padding to
a 32-byte multiple then proceeds on the result. -/
theorem c8_decode_total (cs : List Char) :
    (decodeHexCore cs).length = (cs.length + 1) / 2 ∧
    (cs.length % 2 = 0 → ∀ c : Char,
      decodeHexCore (cs ++ [c]) = decodeHexCore cs ++ [(u8FromStrRadix16 [c]).getD 0]) := by
  induction cs using decodeHexCore.induct with
  | case1 => exact ⟨rfl, fun _ c => rfl⟩
  | case2 c => exact ⟨by norm_num [decodeHexCore], fun h => by simp at h⟩
  | case3 c1 c2 rest ih =>
    constructor
    · simp only [decodeHexCore, List.length_cons]
      rw [ih.1]
      omega
    · intro h c
      have hr : rest.length % 2 = 0 := by
        simp only [List.length_cons] at h
        omega
      simp only [List.cons_append, decodeHexCore, List.append_eq]
      rw [ih.2 hr c]

/-- Witness for C8's amended theorem at the concrete even-length input "12"
extended by '3'. -/
theorem c8_witness :
    (decodeHexCore [ '1', '2' ]).length = ([ '1', '2' ].length + 1) / 2 ∧
    decodeHexCore ([ '1', '2' ] ++ [ '3' ]) =
      decodeHexCore [ '1', '2' ] ++ [(u8FromStrRadix16 [ '3' ]).getD 0] :=
  ⟨(c8_decode_total [ '1', '2' ]).1, (c8_decode_total [ '1', '2' ]).2 (by decide) '3'⟩

/-- Claim C5: the permutation product the pipeline stores for a page is the
fold over that page's cells in original encounter order, starting at 1,
multiplying by `(z − (address + alpha·value)) mod modulus` with every
intermediate normalized into `[0, modulus)`. -/
theorem c5_page_product (cells : List MemoryCell) (z alpha pid : Nat)
    (h : pid ∈ cells.map (·.page)) :
    lookupProd (pageProds cells z alpha) pid = claimProductFold z alpha (pageCells cells pid) := by
  rw [lookupProd_pageProds z alpha h]
  unfold claimProductFold
  exact srcFold_eq_claimFold z alpha _ 1

/-- Witness for C5 at the spec's worked example:
public_memory = [(page 0, address 1, value 5), (page 0, address 2, value 7)],
z = 3, alpha = 2, product = (3-(1+2*5)) * (3-(2+2*7)) mod p = 104. -/
theorem c5_witness :
    (0 ∈ exampleCellsC5.map (·.page)) ∧
    lookupProd (pageProds exampleCellsC5 3 2) 0 = claimProductFold 3 2 (pageCells exampleCellsC5 0) ∧
    claimProductFold 3 2 (pageCells exampleCellsC5 0) = 104 :=
  ⟨by decide, c5_page_product exampleCellsC5 3 2 0 (by decide), by decide⟩

/-- Claim C1 counterexample: at public-input hash 0 with proof word sequence
[0], the source's replay and the claim's literal replay (which hashes the
retry counter before incrementing it, so its advance steps hash counter
values 0, 1, 2, ... where the source hashes 1, 2, 3, ...) both produce
challenge pairs, and the pairs differ. -/
theorem c1_counterexample :
    computeInteractionElementsFromHashAndProof 30 0 [0] ≠ claimInteractionElements 30 0 [0] ∧
    (computeInteractionElementsFromHashAndProof 30 0 [0]).isSome = true ∧
    (claimInteractionElements 30 0 [0]).isSome = true := by
  decide

/-- Claim C1 (amended): for every 32-byte public-input hash and non-empty
proof word sequence, the replay first mixes the first proof word (digest
plus one modulo 2^256, keccak with the trace commitment, counter 0), then
draws z and alpha: while the digest as a big-endian integer is at least
31 times the modulus it advances by incrementing the counter and hashing
the digest concatenated with the incremented counter as 32 bytes; the
accepted integer times the Montgomery inverse modulo the prime is the
challenge, and after each acceptance the state advances once more by the
same increment-then-hash step. -/
theorem c1_transcript_replay (fuel hash : Nat) (proof : List Nat) (_hne : proof ≠ []) :
    computeInteractionElementsFromHashAndProof fuel hash proof =
      amendedInteractionElements fuel hash proof :=
  computeInteraction_eq_amended fuel hash proof

/-- Witness for C1's amended theorem at hash 0, proof [0], fuel 30. -/
theorem c1_witness :
    (([0] : List Nat) ≠ []) ∧
    computeInteractionElementsFromHashAndProof 30 0 [0] = amendedInteractionElements 30 0 [0] :=
  ⟨by decide, c1_transcript_replay 30 0 [0] (by decide)⟩

theorem continuousEntry_eq (cells : List MemoryCell) (pid : Nat) :
    continuousEntry cells pid =
      [pageStartOf cells pid, pageSizeInCells cells pid,
       keccak256 (bytesOfWords (pageValues cells pid))] := by
  unfold continuousEntry pageStartOf pageSizeInCells
  rw [length_pagePairs]
  have h2 : 2 * (pageCells cells pid).length / 2 = (pageCells cells pid).length := by omega
  rw [h2]

theorem interleavedPageZero_eq (cells : List MemoryCell) :
    interleavedPageZero cells = pagePairs cells 0 := by
  rw [pagePairs_eq_flatMap]
  rfl

/-- Claim C2 counterexample: for the sample memory, page 1 has cells only at
addresses 10 and 12 (values 11 and 13).  The claimed dense hash — values in
ascending-address order over [10, 12] with address 11 synthesized as zero,
i.e. keccak over [11, 0, 13] — appears nowhere in the assembled public
input; the hash that does appear is keccak over the sparse encounter-order
values [11, 13], with no zero synthesized. -/
theorem c2_counterexample :
    (continuousPageOf sampleCells 1).values = [11, 0, 13] ∧
    pageValues sampleCells 1 = [11, 13] ∧
    claimedContinuousHash sampleCells 1 ∉
      preparePublicInputWithoutProducts sampleProof (prepareMemoryPageFacts sampleProof) ∧
    keccak256 (bytesOfWords (pageValues sampleCells 1)) ∈
      preparePublicInputWithoutProducts sampleProof (prepareMemoryPageFacts sampleProof) := by
  decide

/-- Claim C2 (amended): for every page with page_id > 0 present in the
memory, the assembled product-free public input contains the contiguous
segment [first-encountered address of the page, page size in cells,
keccak256 of the page's values exactly as present in the input, in
original cell-encounter order] — no absent address is synthesized and no
sorting occurs; the dense zero-filled array exists only in the
MemoryPageFacts side artifact. -/
theorem c2_continuous_hash (p : AnnotatedProof) (facts : MemoryPageFacts) (pid : Nat)
    (hmem : pid ∈ p.public_input.public_memory.map (·.page)) (hnz : pid ≠ 0) :
    [pageStartOf p.public_input.public_memory pid,
     pageSizeInCells p.public_input.public_memory pid,
     keccak256 (bytesOfWords (pageValues p.public_input.public_memory pid))] <:+:
      preparePublicInputWithoutProducts p facts := by
  obtain ⟨pre, post, hpp⟩ :=
    pageEntriesAux_contains facts p.public_input.public_memory
      (sortedPageIds p.public_input.public_memory) 0 pid (mem_sortedPageIds.mpr hmem) hnz
  refine ⟨publicInputHeader p ++ [nPagesFromFacts facts] ++ pre, post, ?_⟩
  rw [← continuousEntry_eq p.public_input.public_memory pid]
  unfold preparePublicInputWithoutProducts
  rw [hpp]
  simp [List.append_assoc]

/-- Witness for C2's amended theorem at the sample proof, page 1. -/
theorem c2_witness :
    (1 ∈ sampleProof.public_input.public_memory.map (·.page)) ∧ (1 : Nat) ≠ 0 ∧
    [pageStartOf sampleProof.public_input.public_memory 1,
     pageSizeInCells sampleProof.public_input.public_memory 1,
     keccak256 (bytesOfWords (pageValues sampleProof.public_input.public_memory 1))] <:+:
      preparePublicInputWithoutProducts sampleProof (prepareMemoryPageFacts sampleProof) :=
  ⟨by decide, by decide,
   c2_continuous_hash sampleProof (prepareMemoryPageFacts sampleProof) 1 (by decide) (by decide)⟩

/-- Claim C3: when page 0 is present it is the first sorted page, and its
hash in the assembled public input is the keccak256 digest of the
interleaved (address, value) sequence in original cell order, every word
serialized big-endian and left-padded to 32 bytes. -/
theorem c3_regular_page_hash (p : AnnotatedProof)
    (h : 0 ∈ p.public_input.public_memory.map (·.page)) :
    preparePublicInputWithoutProducts p (prepareMemoryPageFacts p) =
      publicInputHeader p ++
      [nPagesFromFacts (prepareMemoryPageFacts p),
       (pagePairs p.public_input.public_memory 0).length / 2,
       keccak256 (bytesOfWords (interleavedPageZero p.public_input.public_memory))] ++
      pageEntriesAux (prepareMemoryPageFacts p) p.public_input.public_memory
        (nonzeroPageIds p.public_input.public_memory) 1 := by
  obtain ⟨t, hl, h0⟩ := sortedPageIds_zero_cons h
  have hnz := nonzeroPageIds_of_zero hl h0
  unfold preparePublicInputWithoutProducts
  rw [hl, hnz, interleavedPageZero_eq]
  simp only [pageEntriesAux, beq_self_eq_true, Bool.and_self, if_true]
  rw [show prepareMemoryPageFacts p = prepareMemoryPageFactsCells p.public_input.public_memory from rfl,
    regularPageHashFromFacts_pipeline]
  simp [List.append_assoc]

/-- Witness for C3 at the sample proof. -/
theorem c3_witness :
    (0 ∈ sampleProof.public_input.public_memory.map (·.page)) ∧
    preparePublicInputWithoutProducts sampleProof (prepareMemoryPageFacts sampleProof) =
      publicInputHeader sampleProof ++
      [nPagesFromFacts (prepareMemoryPageFacts sampleProof),
       (pagePairs sampleProof.public_input.public_memory 0).length / 2,
       keccak256 (bytesOfWords (interleavedPageZero sampleProof.public_input.public_memory))] ++
      pageEntriesAux (prepareMemoryPageFacts sampleProof) sampleProof.public_input.public_memory
        (nonzeroPageIds sampleProof.public_input.public_memory) 1 :=
  ⟨by decide, c3_regular_page_hash sampleProof (by decide)⟩

/-- Claim C10: on any public memory containing at least one page-0 cell, the
two assembler variants agree: `memory_page_public_input_with_facts` applied
with the facts built by `prepare_memory_page_facts` from the same memory
returns exactly what `memory_page_public_input` returns. -/
theorem c10_assembler_refinement (cells : List MemoryCell) (z alpha : Nat)
    (h : 0 ∈ cells.map (·.page)) :
    memoryPagePublicInputWithFacts cells z alpha (prepareMemoryPageFactsCells cells) =
      memoryPagePublicInput cells z alpha := by
  obtain ⟨t, hl, h0⟩ := sortedPageIds_zero_cons h
  unfold memoryPagePublicInputWithFacts memoryPagePublicInput
  rw [nPages_pipeline, hl]
  simp only [pageEntriesAux, pageEntriesPlainAux, beq_self_eq_true, Bool.and_self, if_true]
  rw [regularPageHashFromFacts_pipeline, pageEntriesAux_succ, pageEntriesPlainAux_succ]

/-- Witness for C10 at the sample memory with z = 3, alpha = 2. -/
theorem c10_witness :
    (0 ∈ sampleCells.map (·.page)) ∧
    memoryPagePublicInputWithFacts sampleCells 3 2 (prepareMemoryPageFactsCells sampleCells) =
      memoryPagePublicInput sampleCells 3 2 :=
  ⟨by decide, c10_assembler_refinement sampleCells 3 2 (by decide)⟩

theorem flatMap_continuous_eq (cells : List MemoryCell) :
    ∀ t : List Nat, (∀ x ∈ t, x ≠ 0) →
      t.flatMap (continuousEntry cells) =
        t.flatMap fun pid =>
          (if pid == 0 then [] else [pageStartOf cells pid]) ++
          [pageSizeInCells cells pid, pageHashOf cells pid] := by
  intro t
  induction t with
  | nil => intro h; rfl
  | cons x rest ih =>
    intro h
    have hx : x ≠ 0 := h x (List.mem_cons_self _ _)
    have hb : (x == 0) = false := by simpa using hx
    simp only [List.flatMap_cons, ih fun y hy => h y (List.mem_cons_of_mem _ hy)]
    rw [continuousEntry_eq]
    simp [pageHashOf, hb]

theorem pageEntriesAux_pipeline (cells : List MemoryCell) :
    pageEntriesAux (prepareMemoryPageFactsCells cells) cells (sortedPageIds cells) 0 =
      (sortedPageIds cells).flatMap fun pid =>
        (if pid == 0 then [] else [pageStartOf cells pid]) ++
        [pageSizeInCells cells pid, pageHashOf cells pid] := by
  by_cases h : 0 ∈ cells.map (·.page)
  · obtain ⟨t, hl, h0⟩ := sortedPageIds_zero_cons h
    rw [hl]
    simp only [pageEntriesAux, beq_self_eq_true, Bool.and_self, if_true, List.flatMap_cons]
    rw [regularPageHashFromFacts_pipeline, pageEntriesAux_succ,
      flatMap_continuous_eq cells t fun y hy hy0 => h0 (hy0 ▸ hy)]
    have hsz : (pagePairs cells 0).length / 2 = pageSizeInCells cells 0 := by
      unfold pageSizeInCells
      rw [length_pagePairs]
      omega
    simp [pageHashOf, hsz]
  · have hall : ∀ x ∈ sortedPageIds cells, x ≠ 0 :=
      fun x hx hx0 => h (mem_sortedPageIds.mp (hx0 ▸ hx))
    rw [pageEntriesAux_no_zero _ _ _ hall, flatMap_continuous_eq cells _ hall]

/-- Claim C4 counterexample: for the sample proof (one regular and one
continuous page), the assembled public input is not the claimed layout in
which each page contributes size, hash, and then start address — the
source emits a continuous page's start address before its size and hash. -/
theorem c4_counterexample :
    extractInteractionElements sampleProof.annotations = some (3, 2) ∧
    (prepareVerifierInput sampleProof).map VerifierInput.public_input ≠
      some (claimedPublicInputC4 sampleProof 3 2) := by
  decide

/-- Claim C4 (amended): the assembled public input is, in order: the
verifier-friendly-commitment-layer count (default 0 when absent),
log2(step_count), range-check min and max, the layout tag as a big-endian
ASCII integer, the (begin, end) pair of each present segment in the fixed
ten-name order, one padding (address, value) pair from the first memory
cell, the page count, then per page in ascending page-id order — for a
continuous page its start address first — the page size in cells and the
page hash, and finally one permutation product per page in the same sorted
order, appended only once z and alpha are known. -/
theorem c4_public_input_layout (p : AnnotatedProof) (z alpha : Nat)
    (hext : extractInteractionElements p.annotations = some (z, alpha)) :
    prepareVerifierInput p =
      some ⟨proofParams p, proofHexToIntList p.proof_hex,
        claimedPublicInputC4Amended p z alpha, z, alpha, prepareMemoryPageFacts p⟩ := by
  simp only [prepareVerifierInput, hext, Option.some.injEq, VerifierInput.mk.injEq,
    and_true, true_and]
  unfold claimedPublicInputC4Amended preparePublicInputWithoutProducts prepareMemoryPageFacts
  rw [nPages_pipeline, pageEntriesAux_pipeline]

/-- Witness for C4's amended theorem at the sample proof. -/
theorem c4_witness :
    extractInteractionElements sampleProof.annotations = some (3, 2) ∧
    prepareVerifierInput sampleProof =
      some ⟨proofParams sampleProof, proofHexToIntList sampleProof.proof_hex,
        claimedPublicInputC4Amended sampleProof 3 2, 3, 2, prepareMemoryPageFacts sampleProof⟩ :=
  ⟨by decide, c4_public_input_layout sampleProof 3 2 (by decide)⟩

/-- Claim C6 counterexample: for the sample proof the annotation-extracted
pair is (3, 2) while the replay over the hash of the assembled
product-free public input yields a different pair, yet the pipeline
succeeds and silently outputs the annotation values — no cross-check or
loud failure exists (the replay functions are never called). -/
theorem c6_counterexample :
    extractInteractionElements sampleProof.annotations = some (3, 2) ∧
    (replayedInteractionPair 40 sampleProof).isSome = true ∧
    replayedInteractionPair 40 sampleProof ≠ some (3, 2) ∧
    (prepareVerifierInput sampleProof).map (fun vi => (vi.z, vi.alpha)) = some (3, 2) := by
  decide

/-- Claim C6 (amended): the pipeline derives z and alpha solely by
annotation extraction; whenever extraction succeeds the run succeeds with
exactly those values, regardless of what the (never invoked) transcript
replay would produce — divergence is never detected. -/
theorem c6_annotations_trusted (p : AnnotatedProof) (e1 e2 : Nat)
    (hext : extractInteractionElements p.annotations = some (e1, e2)) :
    (prepareVerifierInput p).map (fun vi => (vi.z, vi.alpha)) = some (e1, e2) := by
  simp [prepareVerifierInput, hext]

/-- Witness for C6's amended theorem at the sample proof. -/
theorem c6_witness :
    extractInteractionElements sampleProof.annotations = some (3, 2) ∧
    (prepareVerifierInput sampleProof).map (fun vi => (vi.z, vi.alpha)) = some (3, 2) :=
  ⟨by decide, c6_annotations_trusted sampleProof 3 2 (by decide)⟩

/-- Claim C7 counterexample: a proof whose annotations carry the modulus
itself as interaction element 0 is accepted by the pipeline, which stores
z equal to the modulus — not strictly below it, hence not in canonical
form. -/
theorem c7_counterexample :
    (prepareVerifierInput sampleProofBigZ).map VerifierInput.z = some KModulus ∧
    ¬ KModulus < KModulus := by
  decide

/-- Claim C7 (amended): the challenge elements stored in the verifier
input are exactly the first two annotation-extracted values, verbatim and
never mutated after extraction; they lie below the modulus exactly when
the annotation values do — the pipeline performs no reduction and no
range check. -/
theorem c7_challenges_verbatim (p : AnnotatedProof)
    (h : (prepareVerifierInput p).isSome = true) :
    (prepareVerifierInput p).map (fun vi => (vi.z, vi.alpha)) =
      extractInteractionElements p.annotations := by
  cases hext : extractInteractionElements p.annotations with
  | none => simp [prepareVerifierInput, hext] at h
  | some pair =>
    obtain ⟨e1, e2⟩ := pair
    simp [prepareVerifierInput, hext]

/-- Witness for C7's amended theorem at the out-of-range sample proof. -/
theorem c7_witness :
    (prepareVerifierInput sampleProofBigZ).isSome = true ∧
    (prepareVerifierInput sampleProofBigZ).map (fun vi => (vi.z, vi.alpha)) =
      extractInteractionElements sampleProofBigZ.annotations :=
  ⟨by decide, c7_challenges_verbatim sampleProofBigZ (by decide)⟩

end EvmCodec
